import Mathlib

/-!
Shallow embedding of the `tunnel-rust` Stratum proxy (sources under `src/`):
the per-session miner state (`src/miner.rs`), the per-pool metrics
(`src/pool.rs`), the two line parsers of the connection pump
(`src/proxy.rs`), and the miner-snapshot upsert (`src/database.rs`).

Modelling conventions:
* `chrono::DateTime<Utc>` instants are modelled as `ℤ` (seconds); the code
  compares instants and takes differences only, and the relevant constants
  (`Duration::minutes(10)`, `timestamp()`) are in whole seconds.  Where the
  code takes `num_milliseconds()` of a difference of instants we multiply
  the second-valued difference by `1000`.  Consecutive `Utc::now()` calls
  inside the handling of a single line are modelled as one instant `now`.
* `f64` values (hashrates, difficulty, ping samples, accept times) are
  modelled as `ℚ`; the code performs only field operations on them.
* A line of the TCP stream is modelled after `serde_json::from_str`: either
  `none` (the line is not valid JSON; the code's `if let Ok(msg)` fails)
  or `some j` with `j : Json`.
* `println!` calls guarded by `!nodebug` are modelled as emitted
  `LogEvent` values; the database writes spawned from the pump
  (`save_share`) are outside the state modelled here.
-/

namespace TunnelRust

/-- A JSON value, as produced by `serde_json::from_str::<serde_json::Value>`.
Objects are association lists with distinct keys (serde parses into a map). -/
inductive Json where
  | null : Json
  | bool (b : Bool) : Json
  | num (q : ℚ) : Json
  | str (s : String) : Json
  | arr (elems : List Json) : Json
  | obj (fields : List (String × Json)) : Json

/-- `serde_json::Value::get(key)`: field lookup on objects, `None` otherwise. -/
def Json.get : Json → String → Option Json
  | .obj fields, key => fields.lookup key
  | _, _ => none

/-- `Value::as_str`. -/
def Json.asStr : Json → Option String
  | .str s => some s
  | _ => none

/-- `Value::as_bool`. -/
def Json.asBool : Json → Option Bool
  | .bool b => some b
  | _ => none

/-- `Value::as_f64` (any JSON number converts). -/
def Json.asF64 : Json → Option ℚ
  | .num q => some q
  | _ => none

/-- `Value::as_array`. -/
def Json.asArray : Json → Option (List Json)
  | .arr elems => some elems
  | _ => none

/-- `Value::is_null`. -/
def Json.isNull : Json → Bool
  | .null => true
  | _ => false

/-- One `println!` of the proxy, emitted only when `!nodebug`
(`src/proxy.rs`). -/
inductive LogEvent where
  | authorized (username ip port pool : String)
  | shareSubmitted (name ip port jobId pool : String)
  | poolError (pool : String)
  | newJob (jobId name pool : String)
  | difficultySet (d : ℚ) (name : String)
  | shareAccepted (name ip port pool : String)
  | shareRejected (name ip port pool : String)
deriving DecidableEq

/-- `MinerInfo` (src/miner.rs, lines 6-27).  Atomic counters are plain `ℤ`
here: each parser invocation is modelled as one serialized step. -/
structure MinerInfo where
  wallet : String
  name : String
  ip : String
  port : String
  pool_name : String
  job_id : String
  shares_accepted : ℤ
  shares_rejected : ℤ
  last_seen : ℤ
  connected_at : ℤ
  bytes_download : ℤ
  bytes_upload : ℤ
  packets_sent : ℤ
  packets_received : ℤ
  last_share_time : ℤ
  share_times : List ℤ
  current_hashrate : ℚ
  average_hashrate : ℚ
  difficulty : ℚ
deriving DecidableEq

/-- `MinerInfo::new` (src/miner.rs, lines 30-52); the `Utc::now()` calls are
the single creation instant `now`. -/
def MinerInfo.new (ip port pool_name : String) (now : ℤ) : MinerInfo where
  wallet := ""
  name := "Unknown"
  ip := ip
  port := port
  pool_name := pool_name
  job_id := ""
  shares_accepted := 0
  shares_rejected := 0
  last_seen := now
  connected_at := now
  bytes_download := 0
  bytes_upload := 0
  packets_sent := 0
  packets_received := 0
  last_share_time := now
  share_times := []
  current_hashrate := 0
  average_hashrate := 0
  difficulty := 1

/-- `MinerInfo::calculate_hashrate` (src/miner.rs, lines 54-78).
`cutoff = now - 10 minutes`; `retain(|&t| t > cutoff)`; early `return`
when fewer than 2 samples survive; `timestamp()` differences are in
seconds, which is the unit of our instants. -/
def MinerInfo.calculate_hashrate (m : MinerInfo) (now : ℤ) : MinerInfo :=
  let cutoff := now - 600
  let kept := m.share_times.filter (fun t => decide (cutoff < t))
  if kept.length < 2 then
    { m with share_times := kept, current_hashrate := 0 }
  else
    let total_time : ℚ := ((kept.getLastD 0 - kept.headD 0 : ℤ) : ℚ)
    let m1 :=
      if 0 < total_time then
        { m with share_times := kept,
                 current_hashrate := (kept.length : ℚ) / total_time * m.difficulty }
      else
        { m with share_times := kept }
    if m1.average_hashrate = 0 then
      { m1 with average_hashrate := m1.current_hashrate }
    else
      { m1 with average_hashrate := m1.average_hashrate * 0.9 + m1.current_hashrate * 0.1 }

/-- The `units` array of `MinerInfo::format_hashrate` (src/miner.rs, line 85). -/
def hashrateUnits : List String := ["H/s", "KH/s", "MH/s", "GH/s", "TH/s", "PH/s"]

/-- Round a nonnegative rational to the nearest integer, ties to even: the
rounding Rust's fixed-precision float formatting applies to the value. -/
def roundHalfEven (q : ℚ) : ℤ :=
  let f : ℤ := q.num.fdiv (q.den : ℤ)
  let frac : ℚ := q - (f : ℚ)
  if frac < 1 / 2 then f
  else if 1 / 2 < frac then f + 1
  else if f % 2 = 0 then f else f + 1

/-- Left-pad a digit string with zeros to the requested width. -/
def padZeros (s : String) (width : Nat) : String :=
  String.mk (List.replicate (width - s.length) '0') ++ s

/-- Rust `format!("{:.prec$}", v)` for a nonnegative rational `v`:
round to `prec` fractional digits (half to even) and print them. -/
def fmtFixed (prec : Nat) (v : ℚ) : String :=
  let n := roundHalfEven (v * (10 : ℚ) ^ prec)
  if prec = 0 then toString n
  else
    let p : ℤ := (10 : ℤ) ^ prec
    toString (n / p) ++ "." ++ padZeros (toString (n % p)) prec

/-- The `while value >= 1000.0 && unit_index < units.len() - 1` loop of
`format_hashrate` (src/miner.rs, lines 89-92).  The first argument is
fuel: the loop runs at most `units.len() - 1 = 5` times because
`unit_index` grows by 1 per iteration and is bounded by 5, so fuel 5
makes this total function equal to the loop. -/
def scaleLoop : Nat → ℚ → Nat → ℚ × Nat
  | 0, value, unitIdx => (value, unitIdx)
  | fuel + 1, value, unitIdx =>
    if 1000 ≤ value ∧ unitIdx < hashrateUnits.length - 1 then
      scaleLoop fuel (value / 1000) (unitIdx + 1)
    else
      (value, unitIdx)

/-- `MinerInfo::format_hashrate` (src/miner.rs, lines 80-101). -/
def format_hashrate (hashrate : ℚ) : String :=
  if hashrate = 0 then "0 H/s"
  else
    let vi := scaleLoop (hashrateUnits.length - 1) hashrate 0
    let value := vi.1
    let unit := hashrateUnits.getD vi.2 ""
    if 100 ≤ value then fmtFixed 0 value ++ " " ++ unit
    else if 10 ≤ value then fmtFixed 1 value ++ " " ++ unit
    else fmtFixed 2 value ++ " " ++ unit

/-- `PoolMetrics` (src/pool.rs, lines 6-17). -/
structure PoolMetrics where
  name : String
  current_ping : ℚ
  average_ping : ℚ
  ping_samples : List ℚ
  avg_accept_time : ℚ
  accept_times : List ℚ
  shares_accepted : ℤ
  shares_rejected : ℤ
  last_ping_time : ℤ
deriving DecidableEq

/-- `PoolMetrics::new` (src/pool.rs, lines 20-32). -/
def PoolMetrics.new (name : String) (now : ℤ) : PoolMetrics where
  name := name
  current_ping := 0
  average_ping := 0
  ping_samples := []
  avg_accept_time := 0
  accept_times := []
  shares_accepted := 0
  shares_rejected := 0
  last_ping_time := now

/-- `PoolMetrics::add_ping_sample` (src/pool.rs, lines 34-42):
push, `remove(0)` when the window exceeds 100, recompute the mean. -/
def PoolMetrics.add_ping_sample (pm : PoolMetrics) (ping : ℚ) (now : ℤ) : PoolMetrics :=
  let samples0 := pm.ping_samples ++ [ping]
  let samples := if 100 < samples0.length then samples0.eraseIdx 0 else samples0
  { pm with
    current_ping := ping
    ping_samples := samples
    average_ping := samples.sum / (samples.length : ℚ)
    last_ping_time := now }

/-- `PoolMetrics::add_accept_time` (src/pool.rs, lines 44-50). -/
def PoolMetrics.add_accept_time (pm : PoolMetrics) (time : ℚ) : PoolMetrics :=
  let times0 := pm.accept_times ++ [time]
  let times := if 100 < times0.length then times0.eraseIdx 0 else times0
  { pm with
    accept_times := times
    avg_accept_time := times.sum / (times.length : ℚ) }

/-- The probe period of `monitor_pool_pings`
(`Duration::from_secs(30)`, src/pool.rs, line 82). -/
def ping_interval_secs : ℕ := 30

/-- The connect timeout of `measure_pool_ping`
(`Duration::from_secs(5)`, src/pool.rs, line 104). -/
def ping_timeout_secs : ℕ := 5

/-- The outcome of `tokio::time::timeout(5s, TcpStream::connect(addr)).await`
in `measure_pool_ping` (src/pool.rs, lines 103-106), a
`Result<io::Result<TcpStream>, Elapsed>`:
* `timeout` — the 5 seconds elapsed first (outer `Err(Elapsed)`);
* `connected ping_ms` — the connect succeeded after `ping_ms`
  milliseconds (`Ok(Ok(stream))`);
* `failed ping_ms` — the connect resolved with an I/O error (refused,
  unreachable, ...) after `ping_ms` milliseconds (`Ok(Err(e))`). -/
inductive ProbeOutcome where
  | timeout : ProbeOutcome
  | connected (ping_ms : ℚ) : ProbeOutcome
  | failed (ping_ms : ℚ) : ProbeOutcome

/-- `measure_pool_ping` (src/pool.rs, lines 99-111).  The source guards the
push with `.await.is_ok()`, which tests only the OUTER timeout `Result`:
both a successful connect and a connect that resolves with an error
within the 5-second window take the `is_ok` branch and push the elapsed
time as a ping sample; only an elapsed timeout skips the push. -/
def measure_pool_ping (pm : PoolMetrics) (probe : ProbeOutcome) (now : ℤ) : PoolMetrics :=
  match probe with
  | .timeout => pm
  | .connected ping_ms => pm.add_ping_sample ping_ms now
  | .failed ping_ms => pm.add_ping_sample ping_ms now

/-- `username.split('.').collect::<Vec<_>>()[0]` (src/proxy.rs, lines
181-182): the prefix of `username` before the first '.', all of it when
there is none. -/
def walletOf (username : String) : String :=
  String.mk (username.data.takeWhile (fun c => c != '.'))

/-- `parse_client_message` (src/proxy.rs, lines 165-213), as a step on the
state of the one session the key resolves to.  `line` is the
`serde_json::from_str` outcome; malformed JSON leaves the state
untouched.  `last_seen` is set at the end of the valid-JSON branch. -/
def parse_client_message (line : Option Json) (m : MinerInfo) (poolName : String)
    (now : ℤ) (nodebug : Bool) : MinerInfo × List LogEvent :=
  match line with
  | none => (m, [])
  | some msg =>
    let step : MinerInfo × List LogEvent :=
      match (msg.get "method").bind Json.asStr with
      | some "mining.authorize" =>
        match (msg.get "params").bind Json.asArray with
        | some params =>
          match params[0]?.bind Json.asStr with
          | some username =>
            let m1 := { m with wallet := walletOf username, name := username }
            (m1, if nodebug then [] else [.authorized username m1.ip m1.port poolName])
          | none => (m, [])
        | none => (m, [])
      | some "mining.submit" =>
        let m1 :=
          match (msg.get "params").bind Json.asArray with
          | some params =>
            match params[1]?.bind Json.asStr with
            | some jobId => { m with job_id := jobId }
            | none => m
          | none => m
        let m2 := { m1 with last_share_time := now, share_times := m1.share_times ++ [now] }
        (m2, if nodebug then [] else [.shareSubmitted m2.name m2.ip m2.port m2.job_id poolName])
      | _ => (m, [])
    ({ step.1 with last_seen := now }, step.2)

/-- The error-report block of `parse_pool_message` (src/proxy.rs, lines
228-234): a warning is printed when `error` is present and non-null; no
state changes. -/
def poolErrorLogs (msg : Json) (poolName : String) (nodebug : Bool) : List LogEvent :=
  match msg.get "error" with
  | some e => if !e.isNull && !nodebug then [.poolError poolName] else []
  | none => []

/-- The method-dispatch block of `parse_pool_message` (src/proxy.rs, lines
236-261): `mining.notify` updates `job_id`, `mining.set_difficulty`
updates `difficulty`. -/
def poolMethodStep (msg : Json) (m : MinerInfo) (poolName : String) (nodebug : Bool) :
    MinerInfo × List LogEvent :=
  match (msg.get "method").bind Json.asStr with
  | some "mining.notify" =>
    match (msg.get "params").bind Json.asArray with
    | some params =>
      match params[0]?.bind Json.asStr with
      | some jobId =>
        ({ m with job_id := jobId },
         if nodebug then [] else [.newJob jobId m.name poolName])
      | none => (m, [])
    | none => (m, [])
  | some "mining.set_difficulty" =>
    match (msg.get "params").bind Json.asArray with
    | some params =>
      match params[0]?.bind Json.asF64 with
      | some diff =>
        ({ m with difficulty := diff },
         if nodebug then [] else [.difficultySet diff m.name])
      | none => (m, [])
    | none => (m, [])
  | _ => (m, [])

/-- The reply block of `parse_pool_message` (src/proxy.rs, lines 262-334):
when the message has an `id` field and a boolean `result`, count the
share on session and pool; an accept also records the accept latency
`(now - last_share_time)` in milliseconds and recomputes the hashrate.
The spawned `save_share` database write carries no modelled state. -/
def poolReplyStep (msg : Json) (m : MinerInfo) (pm : PoolMetrics) (poolName : String)
    (now : ℤ) (nodebug : Bool) : MinerInfo × PoolMetrics × List LogEvent :=
  if (msg.get "id").isSome then
    match (msg.get "result").bind Json.asBool with
    | some accepted =>
      let submit_time : ℚ := ((now - m.last_share_time : ℤ) : ℚ) * 1000
      if accepted then
        let m1 := { m with shares_accepted := m.shares_accepted + 1 }
        let m2 := m1.calculate_hashrate now
        let pm1 := { pm with shares_accepted := pm.shares_accepted + 1 }
        let pm2 := pm1.add_accept_time submit_time
        (m2, pm2, if nodebug then [] else [.shareAccepted m2.name m2.ip m2.port poolName])
      else
        let m1 := { m with shares_rejected := m.shares_rejected + 1 }
        let pm1 := { pm with shares_rejected := pm.shares_rejected + 1 }
        (m1, pm1, if nodebug then [] else [.shareRejected m1.name m1.ip m1.port poolName])
    | none => (m, pm, [])
  else (m, pm, [])

/-- `parse_pool_message` (src/proxy.rs, lines 215-338), as a step on the
session state and the metrics entry of the session's pool.  Block order
follows the source: error report, method dispatch, reply block, then the
`last_seen` update; malformed JSON leaves everything untouched. -/
def parse_pool_message (line : Option Json) (m : MinerInfo) (pm : PoolMetrics)
    (poolName : String) (now : ℤ) (nodebug : Bool) :
    MinerInfo × PoolMetrics × List LogEvent :=
  match line with
  | none => (m, pm, [])
  | some msg =>
    let errLogs := poolErrorLogs msg poolName nodebug
    let ms := poolMethodStep msg m poolName nodebug
    let rs := poolReplyStep msg ms.1 pm poolName now nodebug
    ({ rs.1 with last_seen := now }, rs.2.1, errLogs ++ ms.2 ++ rs.2.2)

/-- A row of the `miners` table (src/database.rs, lines 23-41), unique on
`(wallet, ip, miner_name)`.  The RFC 3339 timestamp strings bound by
`save_miner` encode instants injectively, so the columns are modelled as
the instants. -/
structure MinerRow where
  wallet : String
  miner_name : String
  ip : String
  pool_name : String
  shares_accepted : ℤ
  shares_rejected : ℤ
  bytes_download : ℤ
  bytes_upload : ℤ
  packets_sent : ℤ
  packets_received : ℤ
  current_hashrate : ℚ
  average_hashrate : ℚ
  connected_at : ℤ
  last_seen : ℤ
deriving DecidableEq

/-- The values `Database::save_miner` binds from a `MinerInfo`
(src/database.rs, lines 130-143). -/
def MinerInfo.toRow (m : MinerInfo) : MinerRow where
  wallet := m.wallet
  miner_name := m.name
  ip := m.ip
  pool_name := m.pool_name
  shares_accepted := m.shares_accepted
  shares_rejected := m.shares_rejected
  bytes_download := m.bytes_download
  bytes_upload := m.bytes_upload
  packets_sent := m.packets_sent
  packets_received := m.packets_received
  current_hashrate := m.current_hashrate
  average_hashrate := m.average_hashrate
  connected_at := m.connected_at
  last_seen := m.last_seen

/-- Conflict predicate of the `UNIQUE(wallet, ip, miner_name)` constraint. -/
def MinerRow.sameKey (a b : MinerRow) : Bool :=
  a.wallet == b.wallet && a.ip == b.ip && a.miner_name == b.miner_name

/-- The `DO UPDATE SET` arm of `save_miner` (src/database.rs, lines
118-128): counters become existing + excluded, rates and `last_seen` and
`pool_name` take the excluded (new) value, `connected_at` keeps the
existing one. -/
def mergeRow (old new : MinerRow) : MinerRow :=
  { old with
    shares_accepted := old.shares_accepted + new.shares_accepted
    shares_rejected := old.shares_rejected + new.shares_rejected
    bytes_download := old.bytes_download + new.bytes_download
    bytes_upload := old.bytes_upload + new.bytes_upload
    packets_sent := old.packets_sent + new.packets_sent
    packets_received := old.packets_received + new.packets_received
    current_hashrate := new.current_hashrate
    average_hashrate := new.average_hashrate
    last_seen := new.last_seen
    pool_name := new.pool_name }

/-- `INSERT ... ON CONFLICT(wallet, ip, miner_name) DO UPDATE` on a table
(src/database.rs, lines 112-148): update the conflicting row when one
exists, append the fresh row otherwise. -/
def upsertMinerRow (table : List MinerRow) (r : MinerRow) : List MinerRow :=
  if table.any (fun row => row.sameKey r) then
    table.map (fun row => if row.sameKey r then mergeRow row r else row)
  else table ++ [r]

/-- `Database::save_miner` (src/database.rs, lines 112-148) as a step on
the `miners` table. -/
def save_miner (table : List MinerRow) (m : MinerInfo) : List MinerRow :=
  upsertMinerRow table m.toRow

/-- One mutation of a pool-metrics entry: `add_ping_sample` (from the ping
monitor) or `add_accept_time` (from an accepted share). -/
inductive PoolOp where
  | ping (sample : ℚ) (now : ℤ)
  | accept (time : ℚ)

/-- Apply one `PoolOp` to a `PoolMetrics` entry. -/
def applyPoolOp (pm : PoolMetrics) : PoolOp → PoolMetrics
  | .ping q now => pm.add_ping_sample q now
  | .accept q => pm.add_accept_time q

/-- Apply a sequence of `PoolOp`s in order. -/
def runPoolOps (pm : PoolMetrics) (ops : List PoolOp) : PoolMetrics :=
  ops.foldl applyPoolOp pm

/-- The ping samples pushed by a sequence of operations, in order. -/
def opPings (ops : List PoolOp) : List ℚ :=
  ops.filterMap fun op => match op with | .ping q _ => some q | .accept _ => none

/-- The accept times pushed by a sequence of operations, in order. -/
def opAccepts (ops : List PoolOp) : List ℚ :=
  ops.filterMap fun op => match op with | .accept q => some q | .ping _ _ => none

/-- The last at most 100 elements of a list: the contents of a FIFO window
of bound 100 after pushing the whole list through it. -/
def lastWindow (l : List ℚ) : List ℚ := l.drop (l.length - 100)

/-- Follows the spec's words for unit selection in hashrate formatting:
the largest unit index `i ≤ 5` whose scaled value `h / 1000 ^ i` is at
least 1 (equivalently `1000 ^ i ≤ h`), saturating at 5 (PH/s). -/
def specUnitIdx (h : ℚ) : ℕ :=
  if 1000 ^ 5 ≤ h then 5
  else if 1000 ^ 4 ≤ h then 4
  else if 1000 ^ 3 ≤ h then 3
  else if 1000 ^ 2 ≤ h then 2
  else if 1000 ^ 1 ≤ h then 1
  else 0

/-- Follows the spec's words for hashrate formatting, to be compared with
`format_hashrate`: scale to the largest unit with value at least 1, print
0 fractional digits if the scaled value is at least 100, 1 if at least
10, else 2; zero renders as "0 H/s". -/
def specFormatHashrate (h : ℚ) : String :=
  if h = 0 then "0 H/s"
  else
    let value := h / 1000 ^ specUnitIdx h
    let digits : ℕ := if 100 ≤ value then 0 else if 10 ≤ value then 1 else 2
    fmtFixed digits value ++ " " ++ hashrateUnits.getD (specUnitIdx h) ""

section Theorems

attribute [local semireducible] Rat.mul Rat.inv Rat.add Rat.sub Rat.ofScientific

/-- `calculate_hashrate` touches only `share_times`, `current_hashrate` and
`average_hashrate`; every other field of the session survives. -/
theorem calculate_hashrate_fields (m : MinerInfo) (now : ℤ) :
    (m.calculate_hashrate now).wallet = m.wallet ∧
    (m.calculate_hashrate now).name = m.name ∧
    (m.calculate_hashrate now).connected_at = m.connected_at ∧
    (m.calculate_hashrate now).shares_accepted = m.shares_accepted ∧
    (m.calculate_hashrate now).shares_rejected = m.shares_rejected ∧
    (m.calculate_hashrate now).last_seen = m.last_seen ∧
    (m.calculate_hashrate now).last_share_time = m.last_share_time := by
  simp only [MinerInfo.calculate_hashrate]
  repeat' split
  all_goals simp

/-- The method-dispatch block of the pool parser touches only `job_id` and
`difficulty`. -/
theorem poolMethodStep_fields (msg : Json) (m : MinerInfo) (p : String) (nd : Bool) :
    (poolMethodStep msg m p nd).1.wallet = m.wallet ∧
    (poolMethodStep msg m p nd).1.name = m.name ∧
    (poolMethodStep msg m p nd).1.connected_at = m.connected_at ∧
    (poolMethodStep msg m p nd).1.shares_accepted = m.shares_accepted ∧
    (poolMethodStep msg m p nd).1.shares_rejected = m.shares_rejected ∧
    (poolMethodStep msg m p nd).1.last_seen = m.last_seen ∧
    (poolMethodStep msg m p nd).1.last_share_time = m.last_share_time := by
  simp only [poolMethodStep]
  repeat' split
  all_goals simp

/-- A reply without an `id` field leaves session and pool untouched. -/
theorem poolReplyStep_no_id (msg : Json) (m : MinerInfo) (pm : PoolMetrics)
    (p : String) (now : ℤ) (nd : Bool) (h : (msg.get "id").isSome = false) :
    poolReplyStep msg m pm p now nd = (m, pm, []) := by
  simp [poolReplyStep, h]

/-- A reply whose `result` is absent or not a boolean leaves session and
pool untouched. -/
theorem poolReplyStep_no_bool (msg : Json) (m : MinerInfo) (pm : PoolMetrics)
    (p : String) (now : ℤ) (nd : Bool)
    (h : (msg.get "result").bind Json.asBool = none) :
    poolReplyStep msg m pm p now nd = (m, pm, []) := by
  simp only [poolReplyStep, h]
  split <;> rfl

/-- A reply with an `id` and `result=true` increments the accepted-share
counters of session and pool and leaves the rejected counters alone. -/
theorem poolReplyStep_accepted (msg : Json) (m : MinerInfo) (pm : PoolMetrics)
    (p : String) (now : ℤ) (nd : Bool)
    (hid : (msg.get "id").isSome = true)
    (hb : (msg.get "result").bind Json.asBool = some true) :
    (poolReplyStep msg m pm p now nd).1.shares_accepted = m.shares_accepted + 1 ∧
    (poolReplyStep msg m pm p now nd).1.shares_rejected = m.shares_rejected ∧
    (poolReplyStep msg m pm p now nd).2.1.shares_accepted = pm.shares_accepted + 1 ∧
    (poolReplyStep msg m pm p now nd).2.1.shares_rejected = pm.shares_rejected ∧
    (poolReplyStep msg m pm p now nd).1.wallet = m.wallet ∧
    (poolReplyStep msg m pm p now nd).1.name = m.name ∧
    (poolReplyStep msg m pm p now nd).1.connected_at = m.connected_at := by
  have hshape := calculate_hashrate_fields
    { m with shares_accepted := m.shares_accepted + 1 } now
  simp only [poolReplyStep, hid, hb]
  simp only [if_true]
  simp [PoolMetrics.add_accept_time, hshape.1, hshape.2.1, hshape.2.2.1,
    hshape.2.2.2.1, hshape.2.2.2.2.1]

/-- A reply with an `id` and `result=false` increments the rejected-share
counters of session and pool and leaves the accepted counters alone. -/
theorem poolReplyStep_rejected (msg : Json) (m : MinerInfo) (pm : PoolMetrics)
    (p : String) (now : ℤ) (nd : Bool)
    (hid : (msg.get "id").isSome = true)
    (hb : (msg.get "result").bind Json.asBool = some false) :
    (poolReplyStep msg m pm p now nd).1.shares_accepted = m.shares_accepted ∧
    (poolReplyStep msg m pm p now nd).1.shares_rejected = m.shares_rejected + 1 ∧
    (poolReplyStep msg m pm p now nd).2.1.shares_accepted = pm.shares_accepted ∧
    (poolReplyStep msg m pm p now nd).2.1.shares_rejected = pm.shares_rejected + 1 ∧
    (poolReplyStep msg m pm p now nd).1.wallet = m.wallet ∧
    (poolReplyStep msg m pm p now nd).1.name = m.name ∧
    (poolReplyStep msg m pm p now nd).1.connected_at = m.connected_at := by
  simp [poolReplyStep, hid, hb]

/-- Unfolding of the pool parser on valid JSON into its three blocks. -/
theorem parse_pool_message_some (msg : Json) (m : MinerInfo) (pm : PoolMetrics)
    (p : String) (now : ℤ) (nd : Bool) :
    parse_pool_message (some msg) m pm p now nd =
      ({ (poolReplyStep msg (poolMethodStep msg m p nd).1 pm p now nd).1 with
          last_seen := now },
       (poolReplyStep msg (poolMethodStep msg m p nd).1 pm p now nd).2.1,
       poolErrorLogs msg p nd ++ (poolMethodStep msg m p nd).2 ++
         (poolReplyStep msg (poolMethodStep msg m p nd).1 pm p now nd).2.2) := rfl

/-- The reply block never changes `wallet`, `name` or `connected_at`. -/
theorem poolReplyStep_fields (msg : Json) (m : MinerInfo) (pm : PoolMetrics)
    (p : String) (now : ℤ) (nd : Bool) :
    (poolReplyStep msg m pm p now nd).1.wallet = m.wallet ∧
    (poolReplyStep msg m pm p now nd).1.name = m.name ∧
    (poolReplyStep msg m pm p now nd).1.connected_at = m.connected_at := by
  simp only [poolReplyStep]
  repeat' split
  all_goals simp [calculate_hashrate_fields, PoolMetrics.add_accept_time]

/-- The client parser never changes `connected_at`. -/
theorem parse_client_message_connected (msg : Json) (m : MinerInfo) (p : String)
    (now : ℤ) (nd : Bool) :
    (parse_client_message (some msg) m p now nd).1.connected_at = m.connected_at := by
  simp only [parse_client_message]
  repeat' split
  all_goals rfl

/-- The pool parser never changes `connected_at`. -/
theorem parse_pool_message_connected (msg : Json) (m : MinerInfo) (pm : PoolMetrics)
    (p : String) (now : ℤ) (nd : Bool) :
    (parse_pool_message (some msg) m pm p now nd).1.connected_at = m.connected_at := by
  rw [parse_pool_message_some]
  show (poolReplyStep msg (poolMethodStep msg m p nd).1 pm p now nd).1.connected_at
      = m.connected_at
  rw [(poolReplyStep_fields msg (poolMethodStep msg m p nd).1 pm p now nd).2.2]
  exact (poolMethodStep_fields msg m p nd).2.2.1

/-- C2 (corrected): on every call, `calculate_hashrate` first evicts all
submit timestamps not strictly newer than `now - 10 min`; if fewer than 2
samples remain it sets `current_hashrate` to 0 and returns early, leaving
`average_hashrate` unchanged; otherwise, with `span = last - first`
seconds, if `span` is positive it sets `current_hashrate` to
`(samples / span) * difficulty` (else keeps it), and only then — that is,
only when at least 2 samples remain — sets `average_hashrate` to
`current_hashrate` when it was 0 and to
`0.9 * average_hashrate + 0.1 * current_hashrate` otherwise. -/
theorem C2_calculate_hashrate_corrected (m : MinerInfo) (now : ℤ) :
    m.calculate_hashrate now =
      (let kept := m.share_times.filter fun t => decide (now - 600 < t)
       let span : ℚ := ((kept.getLastD 0 - kept.headD 0 : ℤ) : ℚ)
       let cur : ℚ :=
         if kept.length < 2 then 0
         else if 0 < span then (kept.length : ℚ) / span * m.difficulty
         else m.current_hashrate
       let avg : ℚ :=
         if kept.length < 2 then m.average_hashrate
         else if m.average_hashrate = 0 then cur
         else m.average_hashrate * 0.9 + cur * 0.1
       { m with share_times := kept, current_hashrate := cur, average_hashrate := avg }) := by
  simp only [MinerInfo.calculate_hashrate]
  split_ifs <;> rfl

/-- C2 counterexample: a session with an empty submit window and
`average_hashrate = 4` keeps `average_hashrate = 4` after
`calculate_hashrate` (the early return), while the claim — average
updated on every call, to `0.9 * 4 + 0.1 * current` with `current = 0`
here — demands `3.6`. -/
theorem C2_calculate_hashrate_counterexample :
    (({ MinerInfo.new "10.0.0.1" "4444" "poolA" 0 with
        average_hashrate := 4 } : MinerInfo).calculate_hashrate 1000).share_times = [] ∧
    (({ MinerInfo.new "10.0.0.1" "4444" "poolA" 0 with
        average_hashrate := 4 } : MinerInfo).calculate_hashrate 1000).current_hashrate = 0 ∧
    (({ MinerInfo.new "10.0.0.1" "4444" "poolA" 0 with
        average_hashrate := 4 } : MinerInfo).calculate_hashrate 1000).average_hashrate = 4 ∧
    ((4 : ℚ) * 0.9 + 0 * 0.1 ≠ 4) := by decide

/-- C3 (corrected): `last_seen` is set to the current time on every line
that parses as valid JSON, in either direction; a line that is not valid
JSON leaves the session (and pool) state entirely unchanged, `last_seen`
included.  `connected_at` is never changed, at creation
`last_seen = connected_at`, and hence `last_seen ≥ connected_at` is
preserved by every line whose processing time is not before
`connected_at`. -/
theorem C3_last_seen_corrected :
    (∀ (m : MinerInfo) (p : String) (now : ℤ) (nd : Bool),
      parse_client_message none m p now nd = (m, [])) ∧
    (∀ (m : MinerInfo) (pm : PoolMetrics) (p : String) (now : ℤ) (nd : Bool),
      parse_pool_message none m pm p now nd = (m, pm, [])) ∧
    (∀ (msg : Json) (m : MinerInfo) (p : String) (now : ℤ) (nd : Bool),
      (parse_client_message (some msg) m p now nd).1.last_seen = now) ∧
    (∀ (msg : Json) (m : MinerInfo) (pm : PoolMetrics) (p : String) (now : ℤ) (nd : Bool),
      (parse_pool_message (some msg) m pm p now nd).1.last_seen = now) ∧
    (∀ (ip port pool : String) (now : ℤ),
      (MinerInfo.new ip port pool now).last_seen = (MinerInfo.new ip port pool now).connected_at) ∧
    (∀ (line : Option Json) (m : MinerInfo) (p : String) (now : ℤ) (nd : Bool),
      m.connected_at ≤ m.last_seen → m.connected_at ≤ now →
      (parse_client_message line m p now nd).1.connected_at ≤
        (parse_client_message line m p now nd).1.last_seen) ∧
    (∀ (line : Option Json) (m : MinerInfo) (pm : PoolMetrics) (p : String) (now : ℤ) (nd : Bool),
      m.connected_at ≤ m.last_seen → m.connected_at ≤ now →
      (parse_pool_message line m pm p now nd).1.connected_at ≤
        (parse_pool_message line m pm p now nd).1.last_seen) := by
  refine ⟨fun m p now nd => rfl, fun m pm p now nd => rfl,
    fun msg m p now nd => rfl, fun msg m pm p now nd => rfl,
    fun ip port pool now => rfl, ?_, ?_⟩
  · rintro (_ | msg) m p now nd h1 h2
    · exact h1
    · rw [parse_client_message_connected]
      exact h2
  · rintro (_ | msg) m pm p now nd h1 h2
    · exact h1
    · rw [parse_pool_message_connected]
      exact h2

/-- Witness for C3: a concrete valid-JSON line at time 7 on a fresh
session created at time 0 keeps `connected_at ≤ last_seen`. -/
theorem C3_last_seen_witness :
    (MinerInfo.new "1.1.1.1" "2" "p" 0).connected_at ≤
      (MinerInfo.new "1.1.1.1" "2" "p" 0).last_seen ∧
    (MinerInfo.new "1.1.1.1" "2" "p" 0).connected_at ≤ 7 ∧
    (parse_client_message (some (Json.str "x")) (MinerInfo.new "1.1.1.1" "2" "p" 0)
        "p" 7 true).1.connected_at ≤
      (parse_client_message (some (Json.str "x")) (MinerInfo.new "1.1.1.1" "2" "p" 0)
        "p" 7 true).1.last_seen :=
  ⟨by decide, by decide,
    C3_last_seen_corrected.2.2.2.2.2.1 (some (Json.str "x"))
      (MinerInfo.new "1.1.1.1" "2" "p" 0) "p" 7 true (by decide) (by decide)⟩

/-- C3 counterexample: a line that is not valid JSON, observed at time
999, leaves `last_seen` at its prior value 0 — the claim demands the
update regardless of parser outcome. -/
theorem C3_last_seen_counterexample :
    parse_client_message none (MinerInfo.new "1.2.3.4" "5555" "p1" 0) "p1" 999 true
      = (MinerInfo.new "1.2.3.4" "5555" "p1" 0, []) ∧
    (MinerInfo.new "1.2.3.4" "5555" "p1" 0).last_seen = 0 ∧ (0 : ℤ) ≠ 999 := by
  decide

/-- C6 (code bug): the source guards the sample push with `.await.is_ok()`
on the outer timeout `Result` only, so a TCP connect that fails within
the 5-second timeout — here resolving with an error after 3 ms — still
pushes a ping sample onto a fresh pool entry, where the claim (and the
spec: failures are silently dropped) demands no pool-state change; only
an elapsed timeout leaves the pool untouched, a successful connect
pushes the measured latency, and the period and timeout constants are
30 and 5 seconds. -/
theorem C6_ping_probe_bug :
    measure_pool_ping (PoolMetrics.new "p" 0) (ProbeOutcome.failed 3) 7
      = (PoolMetrics.new "p" 0).add_ping_sample 3 7 ∧
    (measure_pool_ping (PoolMetrics.new "p" 0) (ProbeOutcome.failed 3) 7).ping_samples
      = [3] ∧
    (PoolMetrics.new "p" 0).ping_samples = [] ∧
    (∀ (pm : PoolMetrics) (now : ℤ), measure_pool_ping pm ProbeOutcome.timeout now = pm) ∧
    (∀ (pm : PoolMetrics) (q : ℚ) (now : ℤ),
      measure_pool_ping pm (ProbeOutcome.connected q) now = pm.add_ping_sample q now) ∧
    (∀ (pm : PoolMetrics) (q : ℚ) (now : ℤ),
      measure_pool_ping pm (ProbeOutcome.failed q) now = pm.add_ping_sample q now) ∧
    ping_interval_secs = 30 ∧ ping_timeout_secs = 5 :=
  ⟨rfl, by decide, rfl, fun pm now => rfl, fun pm q now => rfl, fun pm q now => rfl,
   rfl, rfl⟩

/-- C10: a `mining.submit` whose second positional parameter is missing or
not a string still sets `last_share_time = now` and appends `now` to the
submit-time window, while `job_id` keeps its previous value. -/
theorem C10_submit_without_job (msg : Json) (m : MinerInfo) (p : String) (now : ℤ)
    (nd : Bool)
    (hm : (msg.get "method").bind Json.asStr = some "mining.submit")
    (hj : ((msg.get "params").bind Json.asArray).bind (fun ps => ps[1]?.bind Json.asStr) = none) :
    (parse_client_message (some msg) m p now nd).1.last_share_time = now ∧
    (parse_client_message (some msg) m p now nd).1.share_times = m.share_times ++ [now] ∧
    (parse_client_message (some msg) m p now nd).1.job_id = m.job_id := by
  simp only [parse_client_message]
  repeat' split
  all_goals simp_all

/-- Witness for C10: a concrete submit with a single (wallet) parameter
and no job id. -/
theorem C10_submit_without_job_witness :
    ((Json.obj [("method", Json.str "mining.submit"),
        ("params", Json.arr [Json.str "w.rig"])]).get "method").bind Json.asStr
      = some "mining.submit" ∧
    (((Json.obj [("method", Json.str "mining.submit"),
        ("params", Json.arr [Json.str "w.rig"])]).get "params").bind Json.asArray).bind
        (fun ps => ps[1]?.bind Json.asStr) = none ∧
    ((parse_client_message
        (some (Json.obj [("method", Json.str "mining.submit"),
          ("params", Json.arr [Json.str "w.rig"])]))
        (MinerInfo.new "1.1.1.1" "2" "p" 0) "p" 50 true).1.last_share_time = 50 ∧
      (parse_client_message
        (some (Json.obj [("method", Json.str "mining.submit"),
          ("params", Json.arr [Json.str "w.rig"])]))
        (MinerInfo.new "1.1.1.1" "2" "p" 0) "p" 50 true).1.share_times
        = (MinerInfo.new "1.1.1.1" "2" "p" 0).share_times ++ [50] ∧
      (parse_client_message
        (some (Json.obj [("method", Json.str "mining.submit"),
          ("params", Json.arr [Json.str "w.rig"])]))
        (MinerInfo.new "1.1.1.1" "2" "p" 0) "p" 50 true).1.job_id
        = (MinerInfo.new "1.1.1.1" "2" "p" 0).job_id) :=
  ⟨by decide, by decide,
    C10_submit_without_job
      (Json.obj [("method", Json.str "mining.submit"),
        ("params", Json.arr [Json.str "w.rig"])])
      (MinerInfo.new "1.1.1.1" "2" "p" 0) "p" 50 true (by decide) (by decide)⟩

/-- C1 (corrected): every pool-to-client reply carrying an `id` field and
a boolean `result` updates the share counters of the session and of its
pool unconditionally — the code has no correlation gate on
`last_share_time` or on a 10-minute window — so non-submit
acknowledgments are counted too and
`shares_accepted + shares_rejected` can exceed the number of submits
observed. -/
theorem C1_reply_counting_corrected (msg : Json) (m : MinerInfo) (pm : PoolMetrics)
    (p : String) (now : ℤ) (nd : Bool) (b : Bool)
    (hid : (msg.get "id").isSome = true)
    (hb : (msg.get "result").bind Json.asBool = some b) :
    (parse_pool_message (some msg) m pm p now nd).1.shares_accepted
      = m.shares_accepted + (if b then 1 else 0) ∧
    (parse_pool_message (some msg) m pm p now nd).1.shares_rejected
      = m.shares_rejected + (if b then 0 else 1) ∧
    (parse_pool_message (some msg) m pm p now nd).2.1.shares_accepted
      = pm.shares_accepted + (if b then 1 else 0) ∧
    (parse_pool_message (some msg) m pm p now nd).2.1.shares_rejected
      = pm.shares_rejected + (if b then 0 else 1) := by
  rw [parse_pool_message_some]
  have hmf := poolMethodStep_fields msg m p nd
  cases b with
  | true =>
    have hr := poolReplyStep_accepted msg (poolMethodStep msg m p nd).1 pm p now nd hid hb
    simp [hr.1, hr.2.1, hr.2.2.1, hr.2.2.2.1, hmf.2.2.2.1, hmf.2.2.2.2.1]
  | false =>
    have hr := poolReplyStep_rejected msg (poolMethodStep msg m p nd).1 pm p now nd hid hb
    simp [hr.1, hr.2.1, hr.2.2.1, hr.2.2.2.1, hmf.2.2.2.1, hmf.2.2.2.2.1]

/-- Witness for C1: a concrete `id`-bearing reply with `result=false`
increments the rejected counters. -/
theorem C1_reply_counting_witness :
    ((Json.obj [("id", Json.num 2), ("result", Json.bool false)]).get "id").isSome = true ∧
    (((Json.obj [("id", Json.num 2), ("result", Json.bool false)]).get "result").bind
        Json.asBool = some false) ∧
    (parse_pool_message (some (Json.obj [("id", Json.num 2), ("result", Json.bool false)]))
        (MinerInfo.new "2.2.2.2" "3" "p2" 0) (PoolMetrics.new "p2" 0) "p2" 100 true).1.shares_rejected
      = (MinerInfo.new "2.2.2.2" "3" "p2" 0).shares_rejected + (if false then 0 else 1) :=
  ⟨by decide, by decide,
    (C1_reply_counting_corrected
      (Json.obj [("id", Json.num 2), ("result", Json.bool false)])
      (MinerInfo.new "2.2.2.2" "3" "p2" 0) (PoolMetrics.new "p2" 0) "p2" 100 true false
      (by decide) (by decide)).2.1⟩

/-- C1 counterexample: a session created at time 0 that never submitted a
share (zero submits observed) receives `⦃"id":1,"result":true⦄` at time
700000 — more than 10 minutes after `last_share_time` — and its accepted
counter still rises from 0 to 1, where the claim demands no change and
`shares_accepted + shares_rejected ≤ 0`. -/
theorem C1_reply_counting_counterexample :
    (MinerInfo.new "1.2.3.4" "5555" "p1" 0).shares_accepted = 0 ∧
    (MinerInfo.new "1.2.3.4" "5555" "p1" 0).share_times = [] ∧
    (MinerInfo.new "1.2.3.4" "5555" "p1" 0).last_share_time = 0 ∧
    (600 : ℤ) < 700000 - 0 ∧
    (parse_pool_message (some (Json.obj [("id", Json.num 1), ("result", Json.bool true)]))
        (MinerInfo.new "1.2.3.4" "5555" "p1" 0) (PoolMetrics.new "p1" 0) "p1" 700000
        true).1.shares_accepted = 1 ∧
    (parse_pool_message (some (Json.obj [("id", Json.num 1), ("result", Json.bool true)]))
        (MinerInfo.new "1.2.3.4" "5555" "p1" 0) (PoolMetrics.new "p1" 0) "p1" 700000
        true).2.1.shares_accepted = 1 := by
  decide

/-- C5: a pool reply whose `error` field is present and non-null while its
`result` is absent or not a boolean yields a warning (with debug output
on) and leaves all four share counters unchanged; and, in general, the
rejected counter moves only when the reply carries a boolean
`result = false`. -/
theorem C5_error_reply (msg : Json) (m : MinerInfo) (pm : PoolMetrics)
    (p : String) (now : ℤ) (nd : Bool) (e : Json)
    (he : msg.get "error" = some e) (hnn : e.isNull = false)
    (hres : (msg.get "result").bind Json.asBool = none) :
    LogEvent.poolError p ∈ (parse_pool_message (some msg) m pm p now false).2.2 ∧
    (parse_pool_message (some msg) m pm p now nd).1.shares_accepted = m.shares_accepted ∧
    (parse_pool_message (some msg) m pm p now nd).1.shares_rejected = m.shares_rejected ∧
    (parse_pool_message (some msg) m pm p now nd).2.1.shares_accepted = pm.shares_accepted ∧
    (parse_pool_message (some msg) m pm p now nd).2.1.shares_rejected = pm.shares_rejected ∧
    (∀ (m2 : MinerInfo) (pm2 : PoolMetrics) (msg2 : Json),
      (parse_pool_message (some msg2) m2 pm2 p now nd).1.shares_rejected ≠ m2.shares_rejected →
      (msg2.get "result").bind Json.asBool = some false) := by
  have hmf := poolMethodStep_fields msg m p nd
  have hnb := poolReplyStep_no_bool msg (poolMethodStep msg m p nd).1 pm p now nd hres
  refine ⟨?_, ?_, ?_, ?_, ?_, ?_⟩
  · rw [parse_pool_message_some]
    have hnb2 := poolReplyStep_no_bool msg (poolMethodStep msg m p false).1 pm p now false hres
    simp [poolErrorLogs, he, hnn]
  · rw [parse_pool_message_some]
    simp [hnb, hmf.2.2.2.1]
  · rw [parse_pool_message_some]
    simp [hnb, hmf.2.2.2.2.1]
  · rw [parse_pool_message_some]
    simp [hnb]
  · rw [parse_pool_message_some]
    simp [hnb]
  · intro m2 pm2 msg2 hne
    rw [parse_pool_message_some] at hne
    have hmf2 := poolMethodStep_fields msg2 m2 p nd
    by_cases hid2 : (msg2.get "id").isSome
    · rcases hb2 : (msg2.get "result").bind Json.asBool with _ | b
      · exact absurd (by
          have h0 := poolReplyStep_no_bool msg2 (poolMethodStep msg2 m2 p nd).1 pm2 p now nd hb2
          simp [h0, hmf2.2.2.2.2.1]) hne
      · cases b with
        | true =>
          exact absurd (by
            have h0 := poolReplyStep_accepted msg2 (poolMethodStep msg2 m2 p nd).1 pm2 p now nd hid2 hb2
            simp [h0.2.1, hmf2.2.2.2.2.1]) hne
        | false => rfl
    · exact absurd (by
        have h0 := poolReplyStep_no_id msg2 (poolMethodStep msg2 m2 p nd).1 pm2 p now nd
          (by simpa using hid2)
        simp [h0, hmf2.2.2.2.2.1]) hne

/-- Witness for C5: a concrete reply with a non-null `error` and
`result=null`. -/
theorem C5_error_reply_witness :
    (Json.obj [("id", Json.num 3), ("result", Json.null),
        ("error", Json.str "boom")]).get "error" = some (Json.str "boom") ∧
    (Json.str "boom").isNull = false ∧
    ((Json.obj [("id", Json.num 3), ("result", Json.null),
        ("error", Json.str "boom")]).get "result").bind Json.asBool = none ∧
    LogEvent.poolError "p3" ∈
      (parse_pool_message
        (some (Json.obj [("id", Json.num 3), ("result", Json.null),
          ("error", Json.str "boom")]))
        (MinerInfo.new "3.3.3.3" "4" "p3" 0) (PoolMetrics.new "p3" 0) "p3" 9 false).2.2 :=
  ⟨rfl, by decide, rfl,
    (C5_error_reply
      (Json.obj [("id", Json.num 3), ("result", Json.null), ("error", Json.str "boom")])
      (MinerInfo.new "3.3.3.3" "4" "p3" 0) (PoolMetrics.new "p3" 0) "p3" 9 false
      (Json.str "boom") rfl (by decide) rfl).1⟩

theorem lastWindow_push (p : List ℚ) (q : ℚ) :
    (if 100 < (lastWindow p ++ [q]).length then (lastWindow p ++ [q]).eraseIdx 0
     else lastWindow p ++ [q]) = lastWindow (p ++ [q]) := by
  unfold lastWindow
  rcases Nat.lt_or_ge p.length 100 with hn | hn
  · rw [if_neg (by simp [List.length_drop]; omega)]
    rw [Nat.sub_eq_zero_of_le (le_of_lt hn), Nat.sub_eq_zero_of_le (by simp; omega)]
    simp
  · rw [if_pos (by simp [List.length_drop]; omega)]
    have hlen2 : (p.drop (p.length - 100)).length = 100 := by simp [List.length_drop]; omega
    have h1 : (p ++ [q]).drop (p.length + 1 - 100) = p.drop (p.length + 1 - 100) ++ [q] :=
      List.drop_append_of_le_length (by omega)
    rcases hw : p.drop (p.length - 100) with _ | ⟨x, xs⟩
    · rw [hw] at hlen2; simp at hlen2
    · have htl : xs = p.drop (p.length - 100 + 1) := by
        have ht := List.tail_drop p (p.length - 100)
        rw [hw] at ht; simpa using ht
      have hidx : p.length + 1 - 100 = p.length - 100 + 1 := by omega
      simp only [List.length_append, List.length_singleton]
      rw [h1, hidx]
      simp [htl]

theorem add_ping_sample_window (pm : PoolMetrics) (q : ℚ) (now : ℤ) (p : List ℚ)
    (hp : pm.ping_samples = lastWindow p) :
    (pm.add_ping_sample q now).ping_samples = lastWindow (p ++ [q]) := by
  simp only [PoolMetrics.add_ping_sample, hp]
  exact lastWindow_push p q

theorem add_accept_time_window (pm : PoolMetrics) (t : ℚ) (a : List ℚ)
    (ha : pm.accept_times = lastWindow a) :
    (pm.add_accept_time t).accept_times = lastWindow (a ++ [t]) := by
  simp only [PoolMetrics.add_accept_time, ha]
  exact lastWindow_push a t

theorem add_ping_sample_mean (pm : PoolMetrics) (q : ℚ) (now : ℤ) :
    (pm.add_ping_sample q now).average_ping
      = (pm.add_ping_sample q now).ping_samples.sum
        / ((pm.add_ping_sample q now).ping_samples.length : ℚ) := rfl

theorem add_accept_time_mean (pm : PoolMetrics) (t : ℚ) :
    (pm.add_accept_time t).avg_accept_time
      = (pm.add_accept_time t).accept_times.sum
        / ((pm.add_accept_time t).accept_times.length : ℚ) := rfl

theorem runPoolOps_window (ops : List PoolOp) (pm : PoolMetrics) (p a : List ℚ)
    (hp : pm.ping_samples = lastWindow p)
    (ha : pm.accept_times = lastWindow a)
    (hap : pm.ping_samples ≠ [] →
      pm.average_ping = pm.ping_samples.sum / (pm.ping_samples.length : ℚ))
    (haa : pm.accept_times ≠ [] →
      pm.avg_accept_time = pm.accept_times.sum / (pm.accept_times.length : ℚ)) :
    (runPoolOps pm ops).ping_samples = lastWindow (p ++ opPings ops) ∧
    (runPoolOps pm ops).accept_times = lastWindow (a ++ opAccepts ops) ∧
    ((runPoolOps pm ops).ping_samples ≠ [] →
      (runPoolOps pm ops).average_ping
        = (runPoolOps pm ops).ping_samples.sum / ((runPoolOps pm ops).ping_samples.length : ℚ)) ∧
    ((runPoolOps pm ops).accept_times ≠ [] →
      (runPoolOps pm ops).avg_accept_time
        = (runPoolOps pm ops).accept_times.sum / ((runPoolOps pm ops).accept_times.length : ℚ)) := by
  induction ops generalizing pm p a with
  | nil =>
    simp only [runPoolOps, List.foldl_nil, opPings, opAccepts, List.filterMap_nil,
      List.append_nil]
    exact ⟨hp, ha, hap, haa⟩
  | cons op rest ih =>
    cases op with
    | ping q now =>
      have step := ih (pm.add_ping_sample q now) (p ++ [q]) a
        (add_ping_sample_window pm q now p hp)
        (by simpa using ha)
        (fun _ => add_ping_sample_mean pm q now)
        (by simpa using haa)
      have hrw : runPoolOps pm (PoolOp.ping q now :: rest)
          = runPoolOps (pm.add_ping_sample q now) rest := rfl
      have hpings : opPings (PoolOp.ping q now :: rest) = q :: opPings rest := rfl
      have haccepts : opAccepts (PoolOp.ping q now :: rest) = opAccepts rest := rfl
      rw [hrw, hpings, haccepts]
      simpa [List.append_assoc] using step
    | accept t =>
      have step := ih (pm.add_accept_time t) p (a ++ [t])
        (by simpa using hp)
        (add_accept_time_window pm t a ha)
        (by simpa using hap)
        (fun _ => add_accept_time_mean pm t)
      have hrw : runPoolOps pm (PoolOp.accept t :: rest)
          = runPoolOps (pm.add_accept_time t) rest := rfl
      have hpings : opPings (PoolOp.accept t :: rest) = opPings rest := rfl
      have haccepts : opAccepts (PoolOp.accept t :: rest) = t :: opAccepts rest := rfl
      rw [hrw, hpings, haccepts]
      simpa [List.append_assoc] using step


/-- C4: after any sequence of `add_ping_sample` / `add_accept_time` calls
on a fresh pool-metrics entry, each window holds at most 100 samples and
is exactly the FIFO window (the last at most 100 pushed values, oldest
dropped first), and whenever a window is non-empty the corresponding
average field equals the arithmetic mean of the window. -/
theorem C4_pool_windows (name : String) (t0 : ℤ) (ops : List PoolOp) :
    (runPoolOps (PoolMetrics.new name t0) ops).ping_samples = lastWindow (opPings ops) ∧
    (runPoolOps (PoolMetrics.new name t0) ops).accept_times = lastWindow (opAccepts ops) ∧
    (runPoolOps (PoolMetrics.new name t0) ops).ping_samples.length ≤ 100 ∧
    (runPoolOps (PoolMetrics.new name t0) ops).accept_times.length ≤ 100 ∧
    ((runPoolOps (PoolMetrics.new name t0) ops).ping_samples ≠ [] →
      (runPoolOps (PoolMetrics.new name t0) ops).average_ping
        = (runPoolOps (PoolMetrics.new name t0) ops).ping_samples.sum
          / ((runPoolOps (PoolMetrics.new name t0) ops).ping_samples.length : ℚ)) ∧
    ((runPoolOps (PoolMetrics.new name t0) ops).accept_times ≠ [] →
      (runPoolOps (PoolMetrics.new name t0) ops).avg_accept_time
        = (runPoolOps (PoolMetrics.new name t0) ops).accept_times.sum
          / ((runPoolOps (PoolMetrics.new name t0) ops).accept_times.length : ℚ)) := by
  have h := runPoolOps_window ops (PoolMetrics.new name t0) [] [] rfl rfl
    (fun hne => absurd rfl hne) (fun hne => absurd rfl hne)
  have h1 : (runPoolOps (PoolMetrics.new name t0) ops).ping_samples
      = lastWindow (opPings ops) := by simpa using h.1
  have h2 : (runPoolOps (PoolMetrics.new name t0) ops).accept_times
      = lastWindow (opAccepts ops) := by simpa using h.2.1
  refine ⟨h1, h2, ?_, ?_, h.2.2.1, h.2.2.2⟩
  · rw [h1]; simp only [lastWindow, List.length_drop]; omega
  · rw [h2]; simp only [lastWindow, List.length_drop]; omega

/-- Witness for C4: one ping sample and one accept time; the non-empty
ping window has its average equal to its mean. -/
theorem C4_pool_windows_witness :
    (runPoolOps (PoolMetrics.new "w" 0) [PoolOp.ping 10 5, PoolOp.accept 20]).ping_samples ≠ [] ∧
    (runPoolOps (PoolMetrics.new "w" 0) [PoolOp.ping 10 5, PoolOp.accept 20]).average_ping
      = (runPoolOps (PoolMetrics.new "w" 0) [PoolOp.ping 10 5, PoolOp.accept 20]).ping_samples.sum
        / ((runPoolOps (PoolMetrics.new "w" 0)
            [PoolOp.ping 10 5, PoolOp.accept 20]).ping_samples.length : ℚ) :=
  ⟨by decide,
    (C4_pool_windows "w" 0 [PoolOp.ping 10 5, PoolOp.accept 20]).2.2.2.2.1 (by decide)⟩

theorem scaleLoop_stop (fuel : ℕ) (v : ℚ) (i : ℕ)
    (hc : ¬ (1000 ≤ v ∧ i < 5)) : scaleLoop fuel v i = (v, i) := by
  cases fuel with
  | zero => rfl
  | succ f =>
    simp only [scaleLoop, hashrateUnits]
    norm_num
    intro hv
    rcases not_and_or.mp hc with h | h
    · exact absurd hv h
    · omega

theorem scaleLoop_advance (h : ℚ) (k : ℕ) (hk : k ≤ 5) (hb : (1000:ℚ) ^ k ≤ h) :
    scaleLoop 5 h 0 = scaleLoop (5 - k) (h / 1000 ^ k) k := by
  induction k with
  | zero => simp
  | succ n ih =>
    have hb' : (1000:ℚ) ^ n ≤ h :=
      le_trans (pow_le_pow_right₀ (by norm_num) (Nat.le_succ n)) hb
    have hcond : (1000:ℚ) ≤ h / 1000 ^ n := by
      rw [le_div_iff₀ (pow_pos (by norm_num) n)]
      calc (1000:ℚ) * 1000 ^ n = 1000 ^ (n + 1) := (pow_succ' 1000 n).symm
        _ ≤ h := hb
    have hn5 : n < 5 := by omega
    rw [ih (by omega) hb']
    have hfuel : 5 - n = (5 - (n + 1)) + 1 := by omega
    rw [hfuel]
    simp only [scaleLoop, hashrateUnits]
    rw [if_pos (by norm_num; exact ⟨hcond, hn5⟩)]
    rw [div_div, ← pow_succ]

theorem specUnitIdx_le5 (h : ℚ) : specUnitIdx h ≤ 5 := by
  unfold specUnitIdx
  split_ifs <;> omega

theorem specUnitIdx_lower (h : ℚ) (h1 : 1 ≤ h) : (1000:ℚ) ^ specUnitIdx h ≤ h := by
  unfold specUnitIdx
  split_ifs with a b c d e
  · exact a
  · exact b
  · exact c
  · exact d
  · exact e
  · simpa using h1

theorem specUnitIdx_upper (h : ℚ) :
    specUnitIdx h = 5 ∨ ¬ (1000:ℚ) ^ (specUnitIdx h + 1) ≤ h := by
  unfold specUnitIdx
  split_ifs with a b c d e
  · left; rfl
  all_goals right
  · exact a
  · exact b
  · exact c
  · exact d
  · exact e

theorem scaleLoop_spec (h : ℚ) (h1 : 1 ≤ h) :
    scaleLoop (hashrateUnits.length - 1) h 0
      = (h / 1000 ^ specUnitIdx h, specUnitIdx h) := by
  have hlen : hashrateUnits.length - 1 = 5 := rfl
  rw [hlen, scaleLoop_advance h (specUnitIdx h) (specUnitIdx_le5 h) (specUnitIdx_lower h h1)]
  apply scaleLoop_stop
  rcases specUnitIdx_upper h with h5 | hup
  · rw [h5]; simp
  · rintro ⟨hc, _⟩
    apply hup
    calc (1000:ℚ) ^ (specUnitIdx h + 1) = 1000 * 1000 ^ specUnitIdx h := pow_succ' 1000 _
      _ ≤ (h / 1000 ^ specUnitIdx h) * 1000 ^ specUnitIdx h := by
          exact mul_le_mul_of_nonneg_right hc (by positivity)
      _ = h := div_mul_cancel₀ h (by positivity)

/-- C7: `format_hashrate` renders 0 as "0 H/s", the spec's four examples
hold, and for every hashrate at least 1 it agrees with the spec-side
formatter: scale to the largest of H/s..PH/s whose scaled value is at
least 1 (saturating at PH/s), then print 0 fractional digits when the
scaled value is at least 100, 1 when at least 10, else 2. -/
theorem C7_format_hashrate :
    format_hashrate 0 = "0 H/s" ∧
    format_hashrate 1500 = "1.50 KH/s" ∧
    format_hashrate 12345000 = "12.3 MH/s" ∧
    format_hashrate 250000000000 = "250 GH/s" ∧
    ∀ h : ℚ, 1 ≤ h → format_hashrate h = specFormatHashrate h := by
  refine ⟨by decide, by decide, by decide, by decide, fun h h1 => ?_⟩
  have hne : h ≠ 0 := by intro h0; rw [h0] at h1; norm_num at h1
  unfold format_hashrate specFormatHashrate
  rw [if_neg hne, if_neg hne, scaleLoop_spec h h1]
  dsimp only
  split_ifs <;> rfl

/-- Witness for C7: the refinement at the concrete hashrate 7. -/
theorem C7_format_hashrate_witness :
    (1:ℚ) ≤ 7 ∧ format_hashrate 7 = specFormatHashrate 7 :=
  ⟨by decide, C7_format_hashrate.2.2.2.2 7 (by decide)⟩


theorem walletOf_isPre (u : String) : (walletOf u).data <+: u.data :=
  List.takeWhile_prefix _

theorem pcm_wallet_name_pre (msg : Json) (m : MinerInfo) (p : String) (now : ℤ)
    (nd : Bool) (hpre : m.wallet.data <+: m.name.data) :
    (parse_client_message (some msg) m p now nd).1.wallet.data <+:
      (parse_client_message (some msg) m p now nd).1.name.data := by
  simp only [parse_client_message]
  repeat' split
  all_goals first
    | exact hpre
    | exact walletOf_isPre _

theorem ppm_wallet_name_pre (msg : Json) (m : MinerInfo) (pm : PoolMetrics)
    (p : String) (now : ℤ) (nd : Bool) (hpre : m.wallet.data <+: m.name.data) :
    (parse_pool_message (some msg) m pm p now nd).1.wallet.data <+:
      (parse_pool_message (some msg) m pm p now nd).1.name.data := by
  rw [parse_pool_message_some]
  have hr := poolReplyStep_fields msg (poolMethodStep msg m p nd).1 pm p now nd
  have hm2 := poolMethodStep_fields msg m p nd
  show (poolReplyStep msg (poolMethodStep msg m p nd).1 pm p now nd).1.wallet.data <+:
    (poolReplyStep msg (poolMethodStep msg m p nd).1 pm p now nd).1.name.data
  rw [hr.1, hr.2.1, hm2.1, hm2.2.1]
  exact hpre

theorem pcm_authorize (msg : Json) (m : MinerInfo) (p : String) (now : ℤ) (nd : Bool)
    (params : List Json) (u : String)
    (hm : (msg.get "method").bind Json.asStr = some "mining.authorize")
    (hp : (msg.get "params").bind Json.asArray = some params)
    (hu : params[0]?.bind Json.asStr = some u) :
    (parse_client_message (some msg) m p now nd).1.name = u ∧
    (parse_client_message (some msg) m p now nd).1.wallet = walletOf u := by
  simp only [parse_client_message]
  repeat' split
  all_goals simp_all
theorem mergeRow_sameKey (a r b : MinerRow) :
    (mergeRow a r).sameKey b = a.sameKey b := rfl

theorem find?_map_update (l : List MinerRow) (r old : MinerRow)
    (h : l.find? (fun row => row.sameKey r) = some old) :
    (l.map (fun row => if row.sameKey r then mergeRow row r else row)).find?
      (fun row => row.sameKey r) = some (mergeRow old r) := by
  induction l with
  | nil => simp at h
  | cons x xs ih =>
    by_cases hx : x.sameKey r = true
    · simp only [List.find?, hx] at h
      obtain rfl : x = old := Option.some.inj h
      simp only [List.map_cons, if_pos hx]
      simp [List.find?, mergeRow_sameKey, hx]
    · have hx2 : x.sameKey r = false := by simpa using hx
      simp only [List.find?, hx2] at h
      simp only [List.map_cons, if_neg hx]
      simp only [List.find?, hx2]
      exact ih h

theorem sameKey_self (r : MinerRow) : r.sameKey r = true := by
  simp [MinerRow.sameKey]

theorem save_miner_insert (t : List MinerRow) (m : MinerInfo)
    (h : t.find? (fun row => row.sameKey m.toRow) = none) :
    save_miner t m = t ++ [m.toRow] := by
  unfold save_miner upsertMinerRow
  rw [if_neg]
  intro hany
  rw [List.any_eq_true] at hany
  obtain ⟨x, hx, hpx⟩ := hany
  exact (List.find?_eq_none.mp h x hx) hpx

theorem save_miner_update (t : List MinerRow) (m : MinerInfo) (old : MinerRow)
    (h : t.find? (fun row => row.sameKey m.toRow) = some old) :
    (save_miner t m).find? (fun row => row.sameKey m.toRow)
      = some (mergeRow old m.toRow) := by
  have hp := List.find?_some h
  unfold save_miner upsertMinerRow
  rw [if_pos]
  · exact find?_map_update t m.toRow old h
  · rw [List.any_eq_true]
    exact ⟨old, List.mem_of_find?_eq_some h, hp⟩

theorem save_miner_twice (t : List MinerRow) (m : MinerInfo)
    (h : t.find? (fun row => row.sameKey m.toRow) = none) :
    (save_miner (save_miner t m) m).find? (fun row => row.sameKey m.toRow)
      = some (mergeRow m.toRow m.toRow) := by
  apply save_miner_update
  rw [save_miner_insert t m h, List.find?_append, h]
  simp [sameKey_self]

/-- C8 (corrected): `wallet` is always a prefix of `display_name` and both
parsers preserve this; after a `mining.authorize` with first positional
string parameter `u`, `display_name = u` and `wallet` is the prefix of
`u` before the first dot.  However, before authorization the session is
created with `wallet = ""` and `display_name = "Unknown"`, so
"both empty iff not authorized" does not hold — only the prefix relation
does. -/
theorem C8_wallet_name_corrected :
    (∀ (ip port pool : String) (now : ℤ),
      (MinerInfo.new ip port pool now).wallet = "" ∧
      (MinerInfo.new ip port pool now).name = "Unknown" ∧
      (MinerInfo.new ip port pool now).wallet.data <+:
        (MinerInfo.new ip port pool now).name.data) ∧
    (∀ (msg : Json) (m : MinerInfo) (p : String) (now : ℤ) (nd : Bool)
        (params : List Json) (u : String),
      (msg.get "method").bind Json.asStr = some "mining.authorize" →
      (msg.get "params").bind Json.asArray = some params →
      params[0]?.bind Json.asStr = some u →
      (parse_client_message (some msg) m p now nd).1.name = u ∧
      (parse_client_message (some msg) m p now nd).1.wallet = walletOf u) ∧
    (∀ u : String, (walletOf u).data <+: u.data) ∧
    (∀ (msg : Json) (m : MinerInfo) (p : String) (now : ℤ) (nd : Bool),
      m.wallet.data <+: m.name.data →
      (parse_client_message (some msg) m p now nd).1.wallet.data <+:
        (parse_client_message (some msg) m p now nd).1.name.data) ∧
    (∀ (msg : Json) (m : MinerInfo) (pm : PoolMetrics) (p : String) (now : ℤ) (nd : Bool),
      m.wallet.data <+: m.name.data →
      (parse_pool_message (some msg) m pm p now nd).1.wallet.data <+:
        (parse_pool_message (some msg) m pm p now nd).1.name.data) :=
  ⟨fun ip port pool now => ⟨rfl, rfl, ⟨"Unknown".data, rfl⟩⟩,
   pcm_authorize, walletOf_isPre, pcm_wallet_name_pre, ppm_wallet_name_pre⟩

/-- Witness for C8: a concrete `mining.authorize` with username
"w1.rig". -/
theorem C8_wallet_name_witness :
    ((Json.obj [("method", Json.str "mining.authorize"),
        ("params", Json.arr [Json.str "w1.rig", Json.str "x"])]).get "method").bind
      Json.asStr = some "mining.authorize" ∧
    ((Json.obj [("method", Json.str "mining.authorize"),
        ("params", Json.arr [Json.str "w1.rig", Json.str "x"])]).get "params").bind
      Json.asArray = some [Json.str "w1.rig", Json.str "x"] ∧
    ([Json.str "w1.rig", Json.str "x"][0]?).bind Json.asStr = some "w1.rig" ∧
    ((parse_client_message
        (some (Json.obj [("method", Json.str "mining.authorize"),
          ("params", Json.arr [Json.str "w1.rig", Json.str "x"])]))
        (MinerInfo.new "7.7.7.7" "8" "p" 0) "p" 3 true).1.name = "w1.rig" ∧
      (parse_client_message
        (some (Json.obj [("method", Json.str "mining.authorize"),
          ("params", Json.arr [Json.str "w1.rig", Json.str "x"])]))
        (MinerInfo.new "7.7.7.7" "8" "p" 0) "p" 3 true).1.wallet = walletOf "w1.rig") :=
  ⟨rfl, rfl, rfl,
    C8_wallet_name_corrected.2.1
      (Json.obj [("method", Json.str "mining.authorize"),
        ("params", Json.arr [Json.str "w1.rig", Json.str "x"])])
      (MinerInfo.new "7.7.7.7" "8" "p" 0) "p" 3 true
      [Json.str "w1.rig", Json.str "x"] "w1.rig" rfl rfl rfl⟩

/-- C8 counterexample: a freshly created (hence unauthorized) session has
`display_name = "Unknown" ≠ ""`, so "wallet and display_name are both
empty iff authorization has not happened" fails. -/
theorem C8_wallet_name_counterexample :
    (MinerInfo.new "9.9.9.9" "1111" "pz" 0).wallet = "" ∧
    (MinerInfo.new "9.9.9.9" "1111" "pz" 0).name = "Unknown" ∧
    ("Unknown" : String) ≠ "" := by decide

/-- C9: `save_miner` upserts on the key `(wallet, ip, miner_name)`: with
no conflicting row the snapshot row is appended; with a conflicting row
the six counter columns become existing + new while the rates,
`last_seen` and `pool_name` take the new value and the key and
`connected_at` keep the existing one; consequently two successive
identical snapshots starting from a key-free table leave a cumulative
row whose counters are the sum (double) of the snapshot counters. -/
theorem C9_upsert :
    (∀ (t : List MinerRow) (m : MinerInfo),
      t.find? (fun row => row.sameKey m.toRow) = none →
      save_miner t m = t ++ [m.toRow]) ∧
    (∀ (t : List MinerRow) (m : MinerInfo) (old : MinerRow),
      t.find? (fun row => row.sameKey m.toRow) = some old →
      (save_miner t m).find? (fun row => row.sameKey m.toRow)
        = some (mergeRow old m.toRow)) ∧
    (∀ old r : MinerRow,
      (mergeRow old r).shares_accepted = old.shares_accepted + r.shares_accepted ∧
      (mergeRow old r).shares_rejected = old.shares_rejected + r.shares_rejected ∧
      (mergeRow old r).bytes_download = old.bytes_download + r.bytes_download ∧
      (mergeRow old r).bytes_upload = old.bytes_upload + r.bytes_upload ∧
      (mergeRow old r).packets_sent = old.packets_sent + r.packets_sent ∧
      (mergeRow old r).packets_received = old.packets_received + r.packets_received ∧
      (mergeRow old r).current_hashrate = r.current_hashrate ∧
      (mergeRow old r).average_hashrate = r.average_hashrate ∧
      (mergeRow old r).last_seen = r.last_seen ∧
      (mergeRow old r).pool_name = r.pool_name ∧
      (mergeRow old r).wallet = old.wallet ∧
      (mergeRow old r).ip = old.ip ∧
      (mergeRow old r).miner_name = old.miner_name ∧
      (mergeRow old r).connected_at = old.connected_at) ∧
    (∀ (t : List MinerRow) (m : MinerInfo),
      t.find? (fun row => row.sameKey m.toRow) = none →
      (save_miner (save_miner t m) m).find? (fun row => row.sameKey m.toRow)
        = some (mergeRow m.toRow m.toRow)) :=
  ⟨save_miner_insert, save_miner_update,
   fun old r =>
     ⟨rfl, rfl, rfl, rfl, rfl, rfl, rfl, rfl, rfl, rfl, rfl, rfl, rfl, rfl⟩,
   save_miner_twice⟩

/-- Witness for C9: double snapshot of a fresh session into an empty
table. -/
theorem C9_upsert_witness :
    ([] : List MinerRow).find?
      (fun row => row.sameKey (MinerInfo.new "5.5.5.5" "6" "p" 0).toRow) = none ∧
    (save_miner (save_miner [] (MinerInfo.new "5.5.5.5" "6" "p" 0))
        (MinerInfo.new "5.5.5.5" "6" "p" 0)).find?
      (fun row => row.sameKey (MinerInfo.new "5.5.5.5" "6" "p" 0).toRow)
      = some (mergeRow (MinerInfo.new "5.5.5.5" "6" "p" 0).toRow
          (MinerInfo.new "5.5.5.5" "6" "p" 0).toRow) :=
  ⟨rfl, C9_upsert.2.2.2 [] (MinerInfo.new "5.5.5.5" "6" "p" 0) rfl⟩


end Theorems

end TunnelRust
